import Mathlib

/-! Verification of the WebSocket detection publisher (`src/f.py`).

The file shallowly embeds the publisher's components:
* the backoff/reconnect loop `_connect_websocket`,
* the heartbeat tick of `_manage_websocket` / `_send_heartbeat`,
* the data-send path `_send_message`,
* the bounded outbound queue (`queue.Queue(maxsize=100)` with `put_nowait`),
* the frame normalizer `process_frame`,
* the `StreamIDCounter` singleton.

Network nondeterminism (whether `create_connection` or `send` succeeds)
is represented by explicit oracle lists of booleans that the embedded
code consumes in order.  Transport handles are represented by generation
numbers: each successful connect installs a fresh generation.
-/

namespace AdaniWS


/-! Constants from the source -/

def PROCESSING_WIDTH : ℚ := 640
def PROCESSING_HEIGHT : ℚ := 640
def GRID_SIZE : ℚ := 300
def queueCapacity : Nat := 100

/-! Backoff and the connect loop (`_connect_websocket`, lines 60-79).

`backoffDelay a` is `min(2 ** (attempt // 2), 10)` from line 78.

The connect loop is embedded as `connectAux`: `attempt` is the local
counter (initialized to 0 by the routine), the oracle list gives the
outcome of each `websocket.create_connection` call; an exhausted oracle
models the stop flag being raised.  On success the code stores a fresh
handle, resets `attempt` to 0 and breaks; on failure it sleeps
`backoffDelay attempt` and retries.  The embedding records the slept
delays and also returns the final value of the local `attempt` variable
so that we can prove the reset is unobservable. -/

def backoffDelay (attempt : Nat) : Nat := min (2 ^ (attempt / 2)) 10

structure ConnState where
  ws : Option Nat
  nextGen : Nat
  deriving Repr, DecidableEq

/-- Result of one run of the `_connect_websocket` loop: the delays
slept, the final value of the local `attempt` variable, the connection
state, and the unconsumed tail of the connect oracle. -/
structure ConnectResult where
  delays : List Nat
  attempt : Nat
  conn : ConnState
  rest : List Bool
  deriving Repr, DecidableEq

def connectAux (reset : Bool) (attempt : Nat) (s : ConnState) :
    List Bool → ConnectResult
  | [] => ⟨[], attempt, s, []⟩
  | ok :: rest =>
    if ok then
      ⟨[], if reset then 0 else attempt + 1,
       { ws := some s.nextGen, nextGen := s.nextGen + 1 }, rest⟩
    else
      let r := connectAux reset (attempt + 1) s rest
      ⟨backoffDelay (attempt + 1) :: r.delays, r.attempt, r.conn, r.rest⟩

/-- The routine `_connect_websocket` as called by the program: local `attempt := 0`,
the reset on success present, and the local variable discarded on return
(the Python function returns nothing). -/
def connectWebsocket (s : ConnState) (outcomes : List Bool) : List Nat × ConnState :=
  let r := connectAux true 0 s outcomes
  (r.delays, r.conn)

/-- The same routine with the `attempt = 0` line (line 73) removed. -/
def connectWebsocketNoReset (s : ConnState) (outcomes : List Bool) : List Nat × ConnState :=
  let r := connectAux false 0 s outcomes
  (r.delays, r.conn)

/-- Delays slept by a connect invocation that fails `k` times and then
succeeds. -/
def connectDelaysAfterFailures (s : ConnState) (k : Nat) : List Nat :=
  (connectWebsocket s (List.replicate k false ++ [true])).1

/-! The bounded outbound queue (`queue.Queue(maxsize=100)`, line 37)

`put_nowait` raises `queue.Full` when the queue already holds
`queueCapacity` items; otherwise it appends at the tail.  The consumer
(`_process_messages`) takes from the head, so the list order is the
FIFO order.  `putNowait` returns the new queue plus `true` for a
successful enqueue and `false` for a raised `queue.Full`. -/

structure MQueue (α : Type) where
  items : List α
  deriving Repr, DecidableEq

def MQueue.empty (α : Type) : MQueue α := ⟨[]⟩

def putNowait {α : Type} (q : MQueue α) (m : α) : MQueue α × Bool :=
  if q.items.length < queueCapacity then (⟨q.items ++ [m]⟩, true) else (q, false)

/-- Enqueue a list of messages one after another (consumer stalled),
collecting the success flag of each `put_nowait`. -/
def enqueueAll {α : Type} (q : MQueue α) : List α → MQueue α × List Bool
  | [] => (q, [])
  | m :: ms =>
    let r := putNowait q m
    let rest := enqueueAll r.1 ms
    (rest.1, r.2 :: rest.2)

/-- The consumer side (`_process_messages`, line 99): `get` takes the
oldest entry. -/
def getNowait {α : Type} (q : MQueue α) : Option α × MQueue α :=
  (q.items.head?, ⟨q.items.tail⟩)

def drainAux {α : Type} : Nat → MQueue α → List α
  | 0, _ => []
  | n + 1, q =>
    let r := getNowait q
    match r.1 with
    | none => []
    | some m => m :: drainAux n r.2

/-- Repeatedly `get` until the queue is empty, collecting the messages
in consumption order. -/
def drainAll {α : Type} (q : MQueue α) : List α :=
  drainAux q.items.length q

/-! Grid normalization (`process_frame`, lines 141-148 and 157)

The center of the rectangle is divided by the processing resolution,
scaled by `GRID_SIZE`, clamped via `min(max(v, 0), GRID_SIZE)` and the
payload applies Python `int()`, which truncates toward zero. -/

def pyInt (q : ℚ) : ℤ := if 0 ≤ q then ⌊q⌋ else ⌈q⌉

def gridPoint (x y w h : ℚ) : ℤ × ℤ :=
  let center_x := (x + w / 2) / PROCESSING_WIDTH
  let center_y := (y + h / 2) / PROCESSING_HEIGHT
  let grid_x := min (max (center_x * GRID_SIZE) 0) GRID_SIZE
  let grid_y := min (max (center_y * GRID_SIZE) 0) GRID_SIZE
  (pyInt grid_x, pyInt grid_y)

/-- The spec's wording of the same computation: take the rectangle
center, divide by the processing resolution, scale by the grid size,
clamp each axis independently to `[0, 300]`, truncate to integer. -/
def specGridPoint (x y w h : ℚ) : ℤ × ℤ :=
  let cx := x + w / 2
  let cy := y + h / 2
  let nx := cx / 640
  let ny := cy / 640
  let sx := nx * 300
  let sy := ny * 300
  let clampx := max 0 (min sx 300)
  let clampy := max 0 (min sy 300)
  (pyInt clampx, pyInt clampy)

/-! Frames, regions and `process_frame` (lines 125-165).

A region value is modelled by what the code probes:
* `rect`: `none` models a region with no working `rect()` accessor, in
  which case line 131 raises `AttributeError`;
* `object_id`: outer `none` models a region failing the
  `hasattr`/`callable` check of line 133 (skipped), `some none` models
  `roi.object_id()` returning `None` (skipped, line 137), and
  `some (some i)` a resolvable identifier. -/

structure Region where
  rect : Option (ℚ × ℚ × ℚ × ℚ)
  object_id : Option (Option ℤ)
  deriving DecidableEq

inductive PyError where
  | attributeError
  deriving Repr, DecidableEq

/-- One iteration of the `for roi in rois` loop body: either raises,
skips the region (`none`), or contributes a grid point. -/
def regionPoint (r : Region) : Except PyError (Option (ℤ × ℤ)) :=
  match r.rect with
  | none => .error .attributeError
  | some (x, y, w, h) =>
    match r.object_id with
    | none => .ok none
    | some none => .ok none
    | some (some _) => .ok (some (gridPoint x y w h))

/-- The loop of lines 130-151, building `detection_dots` in order. -/
def collectDots : List Region → Except PyError (List (ℤ × ℤ))
  | [] => .ok []
  | r :: rs =>
    match regionPoint r with
    | .error e => .error e
    | .ok p =>
      match collectDots rs with
      | .error e => .error e
      | .ok ds =>
        .ok (match p with
             | none => ds
             | some d => d :: ds)

structure Message where
  camera_id : Nat
  detections : List (ℤ × ℤ)
  deriving Repr, DecidableEq

/-- Model of `process_frame`: builds the dot list; if non-empty, constructs the
message and offers it to the queue with `put_nowait`, swallowing
`queue.Full`; returns `True`.  An `AttributeError` from `roi.rect()`
propagates to the caller. -/
def process_frame (streamId : Nat) (regions : List Region)
    (q : MQueue Message) : Except PyError (Bool × MQueue Message) :=
  match collectDots regions with
  | .error e => .error e
  | .ok dots =>
    if dots = [] then .ok (true, q)
    else .ok (true, (putNowait q ⟨streamId, dots⟩).1)

/-- A region whose `rect()` works and whose `object_id()` resolves. -/
def validRegion : Region := ⟨some (100, 100, 50, 50), some (some 7)⟩

/-- A queue already holding `queueCapacity` messages. -/
def fullQueue : MQueue Message := ⟨List.replicate queueCapacity ⟨0, [(0, 0)]⟩⟩

/-! The world threading both oracles.

`connOutcomes` feeds `websocket.create_connection`, `sendOutcomes`
feeds `ws.send` (both for data sends and heartbeats).  An exhausted
send oracle counts as a failed send. -/

structure World where
  conn : ConnState
  connOutcomes : List Bool
  sendOutcomes : List Bool
  deriving Repr, DecidableEq

def runConnect (w : World) : List Nat × World :=
  let r := connectAux true 0 w.conn w.connOutcomes
  (r.delays, { w with conn := r.conn, connOutcomes := r.rest })

def popSend (w : World) : Bool × World :=
  match w.sendOutcomes with
  | [] => (false, w)
  | b :: rest => (b, { w with sendOutcomes := rest })

/-- The generation every future send is forced to use or exceed: the
current handle if one exists, otherwise the next generation a connect
would mint. -/
def lbGen (c : ConnState) : Nat :=
  match c.ws with
  | some g => g
  | none => c.nextGen

def wsInv (c : ConnState) : Prop :=
  ∀ g, c.ws = some g → g < c.nextGen

instance (c : ConnState) : Decidable (wsInv c) :=
  match h : c.ws with
  | none => isTrue (by intro g hg; rw [h] at hg; cases hg)
  | some g0 =>
      if hlt : g0 < c.nextGen then
        isTrue (by intro g hg; rw [h] at hg; injection hg with he; exact he ▸ hlt)
      else
        isFalse (by intro hi; exact hlt (hi g0 h))

/-! Model of `_send_message` (lines 105-123).

One attempted transmission at most per call: if no handle, run connect
first; if still no handle, drop the message.  Otherwise send once under
the lock; on failure clear the handle and re-run connect. -/

structure SendEvent where
  gen : Nat
  msg : Message
  underLock : Bool
  success : Bool
  deriving Repr, DecidableEq

def attemptSend (g : Nat) (m : Message) (w : World) : List SendEvent × World :=
  let r := popSend w
  let ev : SendEvent := ⟨g, m, true, r.1⟩
  if r.1 then ([ev], r.2)
  else
    let cleared : World := { r.2 with conn := { r.2.conn with ws := none } }
    ([ev], (runConnect cleared).2)

def sendMessageW (w : World) (m : Message) : List SendEvent × World :=
  match w.conn.ws with
  | some g => attemptSend g m w
  | none =>
    let w1 := (runConnect w).2
    match w1.conn.ws with
    | none => ([], w1)
    | some g => attemptSend g m w1

def runSends (w : World) : List Message → List SendEvent × World
  | [] => ([], w)
  | m :: ms =>
    let r := sendMessageW w m
    let rest := runSends r.2 ms
    (r.1 ++ rest.1, rest.2)

/-- A failed data send is never followed by a send over the same
handle generation. -/
def staleOK (e e' : SendEvent) : Prop := e.success = false → e.gen < e'.gen

/-! Heartbeats (`_manage_websocket` lines 51-58, `_send_heartbeat` lines 81-93).

`json.dumps({"event": "heartbeat"})` produces the thirteen-character
JSON text below.  A heartbeat event records the handle generation used,
the serialized payload, whether the send happened while holding
`ws_lock`, and the outcome. -/

def heartbeatJson : String := "\x7b\"event\": \"heartbeat\"\x7d"

structure HbEvent where
  gen : Nat
  payload : String
  underLock : Bool
  success : Bool
  deriving Repr, DecidableEq

def sendHeartbeat (w : World) : List HbEvent × World :=
  match w.conn.ws with
  | none => ([], w)
  | some g =>
    let r := popSend w
    if r.1 then ([⟨g, heartbeatJson, true, true⟩], r.2)
    else ([⟨g, heartbeatJson, true, false⟩],
          { r.2 with conn := { r.2.conn with ws := none } })

/-- One iteration of the supervisory loop body (lines 53-58). -/
def manageTick (w : World) : List HbEvent × World :=
  match w.conn.ws with
  | none => ([], (runConnect w).2)
  | some _ => sendHeartbeat w

/-! Model of `StreamIDCounter` (lines 17-29).

Sequential model: the counter is process-wide state; `get_next_id`
returns the current value and increments. -/

def get_next_id (counter : Nat) : Nat × Nat := (counter, counter + 1)

/-- Identifiers handed out by `n` successive sequential constructions,
starting from counter value `c`. -/
def allocSeq (c : Nat) : Nat → List Nat
  | 0 => []
  | n + 1 => (get_next_id c).1 :: allocSeq (get_next_id c).2 n

/-! Interleaved model of `get_next_id`: CPython executes
`current_id = self._counter` and the read and write halves of
`self._counter += 1` as separate bytecode steps, and a thread switch
may occur between any two of them.  A thread is a program counter plus
the local `current_id` (`ret`) and the temporary read for the
increment (`tmp`); `pc = 3` means the call completed and returned
`ret`. -/

structure TState where
  pc : Nat
  ret : Nat
  tmp : Nat
  deriving Repr, DecidableEq

def initT : TState := ⟨0, 0, 0⟩

def stepThread (c : Nat) (t : TState) : Nat × TState :=
  match t.pc with
  | 0 => (c, { t with pc := 1, ret := c })
  | 1 => (c, { t with pc := 2, tmp := c })
  | 2 => (t.tmp + 1, { t with pc := 3 })
  | _ => (c, t)

structure AllocWorld where
  counter : Nat
  t1 : TState
  t2 : TState
  deriving Repr, DecidableEq

def allocInit : AllocWorld := ⟨0, initT, initT⟩

def stepWorld (w : AllocWorld) : Bool → AllocWorld
  | true =>
    let r := stepThread w.counter w.t1
    { w with counter := r.1, t1 := r.2 }
  | false =>
    let r := stepThread w.counter w.t2
    { w with counter := r.1, t2 := r.2 }

def runSched (w : AllocWorld) : List Bool → AllocWorld
  | [] => w
  | t :: ts => runSched (stepWorld w t) ts

lemma connectAux_delays (reset : Bool) (k : Nat) :
    ∀ (a : Nat) (s : ConnState),
      (connectAux reset a s (List.replicate k false ++ [true])).delays =
        (List.range k).map (fun i => backoffDelay (a + i + 1)) := by
  induction k with
  | zero => intro a s; simp [connectAux]
  | succ n ih =>
      intro a s
      have h : List.replicate (n + 1) false ++ [true] =
          false :: (List.replicate n false ++ [true]) := by
        simp [List.replicate_succ]
      rw [h]
      simp only [connectAux, if_neg (by simp : ¬ (false = true))]
      rw [ih]
      rw [List.range_succ_eq_map]
      simp [List.map_map, Function.comp]
      intro i _
      ring_nf

lemma connectDelaysAfterFailures_eq (s : ConnState) (k : Nat) :
    connectDelaysAfterFailures s k =
      (List.range k).map (fun i => backoffDelay (i + 1)) := by
  simp only [connectDelaysAfterFailures, connectWebsocket]
  rw [connectAux_delays]
  simp

lemma connectAux_reset_irrelevant (o : List Bool) :
    ∀ (a : Nat) (s : ConnState),
      (connectAux true a s o).delays = (connectAux false a s o).delays ∧
      (connectAux true a s o).conn = (connectAux false a s o).conn ∧
      (connectAux true a s o).rest = (connectAux false a s o).rest := by
  induction o with
  | nil => intro a s; exact ⟨rfl, rfl, rfl⟩
  | cons ok rest ih =>
      intro a s
      cases ok
      · obtain ⟨h1, h2, h3⟩ := ih (a + 1) s
        simp only [connectAux, if_neg (by simp : ¬ (false = true))]
        exact ⟨by rw [h1], h2, h3⟩
      · simp [connectAux]

/-- The connection state after a connect run: either untouched (the
oracle never granted a success, i.e. the loop ran until stop) or a
fresh handle with generation `s.nextGen`. -/
lemma connectAux_conn_cases (reset : Bool) (o : List Bool) :
    ∀ (a : Nat) (s : ConnState),
      (connectAux reset a s o).conn = s ∨
      (connectAux reset a s o).conn = ⟨some s.nextGen, s.nextGen + 1⟩ := by
  induction o with
  | nil => intro a s; exact Or.inl rfl
  | cons ok rest ih =>
      intro a s
      cases ok
      · simpa [connectAux] using ih (a + 1) s
      · simp [connectAux]

lemma backoffDelay_mono : Monotone backoffDelay := by
  intro n m hnm
  unfold backoffDelay
  exact min_le_min_right _ (Nat.pow_le_pow_right (by norm_num) (Nat.div_le_div_right hnm))

lemma backoffDelay_le_ten (n : Nat) : backoffDelay n ≤ 10 := min_le_right _ _

lemma enqueueAll_items {α : Type} (ms : List α) :
    ∀ q : MQueue α,
      (enqueueAll q ms).1.items =
        q.items ++ ms.take (queueCapacity - q.items.length) := by
  induction ms with
  | nil => intro q; simp [enqueueAll]
  | cons m ms ih =>
      intro q
      by_cases h : q.items.length < queueCapacity
      · have hcap : queueCapacity - q.items.length =
            (queueCapacity - (q.items.length + 1)) + 1 := by omega
        simp only [enqueueAll, putNowait, if_pos h]
        rw [ih]
        simp [hcap, List.take_succ_cons]
      · have hcap : queueCapacity - q.items.length = 0 := by omega
        simp only [enqueueAll, putNowait, if_neg h]
        rw [ih]
        simp [hcap]

lemma enqueueAll_flags {α : Type} (ms : List α) :
    ∀ q : MQueue α,
      (enqueueAll q ms).2 =
        (List.range ms.length).map
          (fun i => decide (q.items.length + i < queueCapacity)) := by
  induction ms with
  | nil => intro q; simp [enqueueAll]
  | cons m ms ih =>
      intro q
      by_cases h : q.items.length < queueCapacity
      · simp only [enqueueAll, putNowait, if_pos h]
        rw [ih]
        simp only [List.length_cons, List.range_succ_eq_map, List.map_cons,
          List.map_map]
        refine List.cons_eq_cons.mpr ⟨by simp [h], ?_⟩
        apply List.map_congr_left
        intro i _
        simp only [Function.comp, List.length_append, List.length_singleton]
        exact decide_eq_decide.mpr (by omega)
      · simp only [enqueueAll, putNowait, if_neg h]
        rw [ih]
        simp only [List.length_cons, List.range_succ_eq_map, List.map_cons,
          List.map_map]
        refine List.cons_eq_cons.mpr ⟨by simp [h], ?_⟩
        apply List.map_congr_left
        intro i _
        simp only [Function.comp]
        exact decide_eq_decide.mpr (by omega)

lemma drainAux_eq {α : Type} (n : Nat) :
    ∀ q : MQueue α, q.items.length ≤ n → drainAux n q = q.items := by
  induction n with
  | zero =>
      intro q h
      match hq : q.items with
      | [] => simp [drainAux, hq]
      | x :: xs => rw [hq] at h; simp at h
  | succ k ih =>
      intro q h
      match hq : q.items with
      | [] => simp [drainAux, getNowait, hq]
      | x :: xs =>
          have hlen : xs.length ≤ k := by rw [hq] at h; simpa using h
          simp [drainAux, getNowait, hq, ih ⟨xs⟩ hlen]

lemma drainAll_eq {α : Type} (q : MQueue α) : drainAll q = q.items :=
  drainAux_eq q.items.length q (le_refl _)

lemma clamp_comm (v c : ℚ) (hc : 0 ≤ c) :
    min (max v 0) c = max 0 (min v c) := by
  rcases le_total v 0 with h | h
  · rw [max_eq_right h, min_eq_left hc, max_eq_left (min_le_of_left_le h)]
  · rw [max_eq_left h]
    rcases le_total v c with h2 | h2
    · rw [min_eq_left h2, max_eq_right h]
    · rw [min_eq_right h2, max_eq_right hc]

lemma gridPoint_eq_specGridPoint (x y w h : ℚ) :
    gridPoint x y w h = specGridPoint x y w h := by
  simp only [gridPoint, specGridPoint, PROCESSING_WIDTH, PROCESSING_HEIGHT, GRID_SIZE]
  rw [clamp_comm _ _ (by norm_num : (0:ℚ) ≤ 300),
    clamp_comm _ _ (by norm_num : (0:ℚ) ≤ 300)]

lemma gridPoint_concrete : gridPoint 100 100 50 50 = (58, 58) := by
  have hval : ((100:ℚ) + 50 / 2) / PROCESSING_WIDTH * GRID_SIZE = 37500 / 640 := by
    simp [PROCESSING_WIDTH, GRID_SIZE]
    norm_num
  have hclamp : min (max ((37500:ℚ) / 640) 0) 300 = 37500 / 640 := by
    rw [max_eq_left (by norm_num), min_eq_left (by norm_num)]
  have hfloor : pyInt ((37500:ℚ) / 640) = 58 := by
    rw [pyInt, if_pos (by norm_num)]
    norm_num
  simp only [gridPoint, PROCESSING_HEIGHT, PROCESSING_WIDTH, GRID_SIZE] at *
  rw [hval, hclamp, hfloor]

lemma collectDots_ok_of_rects (regions : List Region)
    (hres : ∀ r ∈ regions, r.rect ≠ none) :
    ∃ ds, collectDots regions = .ok ds := by
  induction regions with
  | nil => exact ⟨[], rfl⟩
  | cons r rs ih =>
      obtain ⟨xywh, hx⟩ := Option.ne_none_iff_exists'.mp
        (hres r (List.mem_cons_self r rs))
      obtain ⟨ds, hds⟩ := ih (fun r' hr' => hres r' (List.mem_cons_of_mem r hr'))
      obtain ⟨x, y, w, h⟩ := xywh
      match hobj : r.object_id with
      | none => exact ⟨ds, by simp [collectDots, regionPoint, hx, hobj, hds]⟩
      | some none => exact ⟨ds, by simp [collectDots, regionPoint, hx, hobj, hds]⟩
      | some (some i) =>
          exact ⟨gridPoint x y w h :: ds,
            by simp [collectDots, regionPoint, hx, hobj, hds]⟩

lemma collectDots_error_of_missing_rect (regions : List Region)
    (hbad : ∃ r ∈ regions, r.rect = none) :
    collectDots regions = .error .attributeError := by
  induction regions with
  | nil => simp at hbad
  | cons r rs ih =>
      obtain ⟨r0, hr0, hrect⟩ := hbad
      rcases List.mem_cons.mp hr0 with h | h
      · subst h
        simp [collectDots, regionPoint, hrect]
      · match hx : r.rect with
        | none => simp [collectDots, regionPoint, hx]
        | some (x, y, w, h') =>
            have := ih ⟨r0, h, hrect⟩
            match hobj : r.object_id with
            | none => simp [collectDots, regionPoint, hx, hobj, this]
            | some none => simp [collectDots, regionPoint, hx, hobj, this]
            | some (some i) => simp [collectDots, regionPoint, hx, hobj, this]

/-- If every region of the frame lacks a resolvable identifier (no
`object_id` accessor, or it returns `None`), the loop collects no dot. -/
lemma collectDots_skip_all (regions : List Region) (dots : List (ℤ × ℤ))
    (hd : collectDots regions = .ok dots)
    (hall : ∀ r ∈ regions, r.object_id = none ∨ r.object_id = some none) :
    dots = [] := by
  induction regions generalizing dots with
  | nil =>
      simp only [collectDots] at hd
      injection hd with h
      exact h.symm
  | cons r rs ih =>
      match hx : r.rect with
      | none =>
          rw [show collectDots (r :: rs) = .error .attributeError by
            simp [collectDots, regionPoint, hx]] at hd
          cases hd
      | some xywh =>
          obtain ⟨x, y, w, h⟩ := xywh
          have hskip : regionPoint r = .ok none := by
            rcases hall r (List.mem_cons_self r rs) with hid | hid <;>
              simp [regionPoint, hx, hid]
          match hrest : collectDots rs with
          | .error e =>
              rw [show collectDots (r :: rs) = .error e by
                simp [collectDots, hskip, hrest]] at hd
              cases hd
          | .ok ds =>
              rw [show collectDots (r :: rs) = .ok ds by
                simp [collectDots, hskip, hrest]] at hd
              injection hd with h
              subst h
              exact ih ds hrest (fun r' hr' => hall r' (List.mem_cons_of_mem r hr'))

lemma collectDots_validRegion : collectDots [validRegion] = .ok [(58, 58)] := by
  simp [collectDots, regionPoint, validRegion, gridPoint_concrete]

/-! Lemmas for the stale-handle property. -/

lemma runConnect_conn_cases (w : World) :
    (runConnect w).2.conn = w.conn ∨
    (runConnect w).2.conn = ⟨some w.conn.nextGen, w.conn.nextGen + 1⟩ := by
  simp only [runConnect]
  exact connectAux_conn_cases true w.connOutcomes 0 w.conn

lemma runConnect_oracles (w : World) :
    (runConnect w).2.sendOutcomes = w.sendOutcomes := rfl

lemma wsInv_runConnect (w : World) (h : wsInv w.conn) :
    wsInv (runConnect w).2.conn := by
  rcases runConnect_conn_cases w with hc | hc <;> rw [hc]
  · exact h
  · intro g hg
    have hge : w.conn.nextGen = g := by simpa using hg
    show g < w.conn.nextGen + 1
    omega

lemma popSend_conn (w : World) : (popSend w).2.conn = w.conn := by
  simp only [popSend]
  cases w.sendOutcomes <;> rfl

lemma attemptSend_fail_world (g : Nat) (m : Message) (w : World)
    (hb : (popSend w).1 = false) :
    attemptSend g m w =
      ([⟨g, m, true, false⟩],
       (runConnect { (popSend w).2 with
                     conn := { (popSend w).2.conn with ws := none } }).2) := by
  simp [attemptSend, hb]

lemma attemptSend_succ_world (g : Nat) (m : Message) (w : World)
    (hb : (popSend w).1 = true) :
    attemptSend g m w = ([⟨g, m, true, true⟩], (popSend w).2) := by
  simp [attemptSend, hb]

lemma attemptSend_spec (g : Nat) (m : Message) (w : World)
    (hglt : g < w.conn.nextGen) :
    (attemptSend g m w).1 = [⟨g, m, true, (popSend w).1⟩] ∧
    ((popSend w).1 = true → (attemptSend g m w).2.conn = w.conn) ∧
    ((popSend w).1 = false →
      wsInv (attemptSend g m w).2.conn ∧ g < lbGen (attemptSend g m w).2.conn) := by
  have key : ∀ (w2 : World), w2.conn = ⟨none, w.conn.nextGen⟩ →
      wsInv (runConnect w2).2.conn ∧ g < lbGen (runConnect w2).2.conn := by
    intro w2 h2
    have hinv2 : wsInv w2.conn := by
      rw [h2]; intro g' hg'; cases hg'
    refine ⟨wsInv_runConnect w2 hinv2, ?_⟩
    rcases runConnect_conn_cases w2 with hc | hc <;> rw [hc, h2] <;> simp [lbGen] <;>
      exact hglt
  cases hb : (popSend w).1
  · rw [attemptSend_fail_world g m w hb]
    have hclconn : ({ (popSend w).2 with
        conn := { (popSend w).2.conn with ws := none } } : World).conn
          = ⟨none, w.conn.nextGen⟩ := by
      simp [popSend_conn]
    exact ⟨rfl, fun h => absurd h Bool.false_ne_true, fun _ => key _ hclconn⟩
  · rw [attemptSend_succ_world g m w hb]
    exact ⟨rfl, fun _ => popSend_conn w, fun h => absurd h (by simp)⟩

lemma sendMessageW_some (w : World) (m : Message) (g : Nat)
    (hws : w.conn.ws = some g) :
    sendMessageW w m = attemptSend g m w := by
  simp [sendMessageW, hws]

lemma sendMessageW_none_drop (w : World) (m : Message)
    (hws : w.conn.ws = none) (h1 : (runConnect w).2.conn.ws = none) :
    sendMessageW w m = ([], (runConnect w).2) := by
  simp [sendMessageW, hws, h1]

lemma sendMessageW_none_conn (w : World) (m : Message) (g : Nat)
    (hws : w.conn.ws = none) (h1 : (runConnect w).2.conn.ws = some g) :
    sendMessageW w m = attemptSend g m (runConnect w).2 := by
  simp [sendMessageW, hws, h1]

/-- Behavior of one `_send_message` call: the invariant is preserved,
the lower bound on usable generations never decreases, the transmitted
event (if any) uses exactly the currently forced generation, and a
failed transmission strictly raises the lower bound: the failed handle
is cleared and a reconnect is performed before the call returns. -/
lemma sendMessageW_spec (w : World) (m : Message) (hinv : wsInv w.conn) :
    wsInv (sendMessageW w m).2.conn ∧
    lbGen w.conn ≤ lbGen (sendMessageW w m).2.conn ∧
    (∀ ev ∈ (sendMessageW w m).1, ev.gen = lbGen w.conn) ∧
    (∀ ev ∈ (sendMessageW w m).1, ev.success = false →
      ev.gen < lbGen (sendMessageW w m).2.conn) := by
  match hws : w.conn.ws with
  | some g =>
      rw [sendMessageW_some w m g hws]
      have hlb : lbGen w.conn = g := by simp [lbGen, hws]
      have hglt : g < w.conn.nextGen := hinv g hws
      obtain ⟨hev, htrue, hfalse⟩ := attemptSend_spec g m w hglt
      cases hb : (popSend w).1
      · obtain ⟨hinv2, hbump⟩ := hfalse hb
        rw [hb] at hev
        refine ⟨hinv2, ?_, ?_, ?_⟩
        · rw [hlb]; exact le_of_lt hbump
        · intro ev hevmem
          rw [hev] at hevmem
          simp at hevmem
          rw [hevmem, hlb]
        · intro ev hevmem _
          rw [hev] at hevmem
          simp at hevmem
          rw [hevmem]
          exact hbump
      · have hconn := htrue hb
        rw [hb] at hev
        refine ⟨by rw [hconn]; exact hinv, by rw [hconn], ?_, ?_⟩
        · intro ev hevmem
          rw [hev] at hevmem
          simp at hevmem
          rw [hevmem, hlb]
        · intro ev hevmem hfail
          rw [hev] at hevmem
          simp at hevmem
          rw [hevmem] at hfail
          cases hfail
  | none =>
      have hlb : lbGen w.conn = w.conn.nextGen := by simp [lbGen, hws]
      rcases hc : (runConnect w).2.conn.ws with _ | g
      · rw [sendMessageW_none_drop w m hws hc]
        have hcase := runConnect_conn_cases w
        rcases hcase with hcc | hcc
        · refine ⟨by rw [hcc]; exact hinv, by rw [hcc], by simp, by simp⟩
        · rw [hcc] at hc
          cases hc
      · rw [sendMessageW_none_conn w m g hws hc]
        have hcase := runConnect_conn_cases w
        rcases hcase with hcc | hcc
        · rw [hcc] at hc
          rw [hws] at hc
          cases hc
        · have hgeq : g = w.conn.nextGen := by
            rw [hcc] at hc
            simpa using hc.symm
          have hinv1 : wsInv (runConnect w).2.conn := wsInv_runConnect w hinv
          have hglt1 : g < (runConnect w).2.conn.nextGen := hinv1 g hc
          obtain ⟨hev, htrue, hfalse⟩ := attemptSend_spec g m (runConnect w).2 hglt1
          cases hb : (popSend (runConnect w).2).1
          · obtain ⟨hinv2, hbump⟩ := hfalse hb
            rw [hb] at hev
            refine ⟨hinv2, ?_, ?_, ?_⟩
            · rw [hlb, ← hgeq]; exact le_of_lt hbump
            · intro ev hevmem
              rw [hev] at hevmem
              simp at hevmem
              rw [hevmem, hlb, hgeq]
            · intro ev hevmem _
              rw [hev] at hevmem
              simp at hevmem
              rw [hevmem]
              exact hbump
          · have hconn := htrue hb
            rw [hb] at hev
            refine ⟨by rw [hconn]; exact hinv1, ?_, ?_, ?_⟩
            · rw [hconn, hlb, hcc]
              simp [lbGen, hgeq]
            · intro ev hevmem
              rw [hev] at hevmem
              simp at hevmem
              rw [hevmem, hlb, hgeq]
            · intro ev hevmem hfail
              rw [hev] at hevmem
              simp at hevmem
              rw [hevmem] at hfail
              cases hfail

lemma runSends_spec (ms : List Message) :
    ∀ w : World, wsInv w.conn →
      wsInv (runSends w ms).2.conn ∧
      lbGen w.conn ≤ lbGen (runSends w ms).2.conn ∧
      (∀ ev ∈ (runSends w ms).1, lbGen w.conn ≤ ev.gen) ∧
      List.Pairwise staleOK (runSends w ms).1 := by
  induction ms with
  | nil => intro w hinv; exact ⟨hinv, le_refl _, by simp [runSends], by simp [runSends]⟩
  | cons m ms ih =>
      intro w hinv
      obtain ⟨hinv1, hmono1, hgen1, hfail1⟩ := sendMessageW_spec w m hinv
      obtain ⟨hinv2, hmono2, hgen2, hpair2⟩ := ih (sendMessageW w m).2 hinv1
      have hev : (runSends w (m :: ms)).1 =
          (sendMessageW w m).1 ++ (runSends (sendMessageW w m).2 ms).1 := rfl
      have hst : (runSends w (m :: ms)).2 = (runSends (sendMessageW w m).2 ms).2 := rfl
      refine ⟨by rw [hst]; exact hinv2, by rw [hst]; exact le_trans hmono1 hmono2, ?_, ?_⟩
      · intro ev hevmem
        rw [hev] at hevmem
        rcases List.mem_append.mp hevmem with hm | hm
        · rw [hgen1 ev hm]
        · exact le_trans hmono1 (hgen2 ev hm)
      · rw [hev]
        rw [List.pairwise_append]
        refine ⟨?_, hpair2, ?_⟩
        · match hevs : (sendMessageW w m).1 with
          | [] => exact List.Pairwise.nil
          | [e] => simp
          | e1 :: e2 :: tl =>
              exfalso
              have h1 : e1 ∈ (sendMessageW w m).1 := by rw [hevs]; simp
              have h2 : e2 ∈ (sendMessageW w m).1 := by rw [hevs]; simp
              -- a single call makes at most one attempt; derive a contradiction
              -- from the shape of sendMessageW
              rcases hws : w.conn.ws with _ | g
              · rcases hc : (runConnect w).2.conn.ws with _ | g
                · rw [sendMessageW_none_drop w m hws hc] at hevs
                  cases hevs
                · rw [sendMessageW_none_conn w m g hws hc] at hevs
                  rcases hb : (popSend (runConnect w).2).1 with _ | _
                  · rw [attemptSend_fail_world g m _ hb] at hevs
                    cases hevs
                  · rw [attemptSend_succ_world g m _ hb] at hevs
                    cases hevs
              · rw [sendMessageW_some w m g hws] at hevs
                rcases hb : (popSend w).1 with _ | _
                · rw [attemptSend_fail_world g m _ hb] at hevs
                  cases hevs
                · rw [attemptSend_succ_world g m _ hb] at hevs
                  cases hevs
        · intro a ha b hb
          intro hafail
          exact lt_of_lt_of_le (hfail1 a ha hafail) (hgen2 b hb)

lemma allocSeq_eq_range' (n : Nat) : ∀ c, allocSeq c n = List.range' c n := by
  induction n with
  | zero => intro c; rfl
  | succ k ih => intro c; simp [allocSeq, get_next_id, ih, List.range']

/-! Claim theorems -/

/-- C1: For every failed connection attempt with attempt count `n ≥ 1`,
the delay slept before the next retry equals `min(2^(n div 2), 10)`
seconds; as a function of `n` this delay is non-decreasing and never
exceeds 10. -/
theorem C1_backoff_delay (s : ConnState) (k n m : Nat)
    (h1 : 1 ≤ n) (h2 : n ≤ k) (h3 : n ≤ m) :
    (connectDelaysAfterFailures s k)[n - 1]? = some (min (2 ^ (n / 2)) 10) ∧
    min (2 ^ (n / 2)) 10 ≤ min (2 ^ (m / 2)) 10 ∧
    min (2 ^ (n / 2)) 10 ≤ 10 := by
  refine ⟨?_, backoffDelay_mono h3, backoffDelay_le_ten n⟩
  rw [connectDelaysAfterFailures_eq, List.getElem?_map,
    List.getElem?_range (by omega : n - 1 < k)]
  have hn : n - 1 + 1 = n := by omega
  simp only [Option.map_some']
  rw [hn, backoffDelay]

theorem C1_backoff_delay_witness :
    (1 ≤ 2 ∧ 2 ≤ 3 ∧ 2 ≤ 5) ∧
    ((connectDelaysAfterFailures ⟨none, 0⟩ 3)[2 - 1]? = some (min (2 ^ (2 / 2)) 10) ∧
     min (2 ^ (2 / 2)) 10 ≤ min (2 ^ (5 / 2)) 10 ∧
     min (2 ^ (2 / 2)) 10 ≤ 10) :=
  ⟨⟨by decide, by decide, by decide⟩,
   C1_backoff_delay ⟨none, 0⟩ 3 2 5 (by decide) (by decide) (by decide)⟩

/-- C9: The attempt counter is local to each `_connect_websocket`
invocation and starts at 0 there: the delays of an invocation depend
only on the number of in-invocation failures (per-attempt delay
`backoffDelay (n+1)`, concretely 1, 2, 2, 4, 4, 8, 8, 10, ...); the
reset of the counter to 0 on success is unobservable (removing line 73
changes nothing); and no backoff state carries over between separate
invocations (the delay list is independent of the prior connection
state). -/
theorem C9_attempt_counter_local (s s' : ConnState) (o : List Bool)
    (k n : Nat) (hn : n < k) :
    connectWebsocket s o = connectWebsocketNoReset s o ∧
    connectDelaysAfterFailures s k = connectDelaysAfterFailures s' k ∧
    (connectDelaysAfterFailures s k)[n]? = some (backoffDelay (n + 1)) ∧
    connectDelaysAfterFailures ⟨none, 0⟩ 8 = [1, 2, 2, 4, 4, 8, 8, 10] := by
  refine ⟨?_, ?_, ?_, by decide⟩
  · obtain ⟨hd, hc, _⟩ := connectAux_reset_irrelevant o 0 s
    simp only [connectWebsocket, connectWebsocketNoReset]
    rw [hd, hc]
  · rw [connectDelaysAfterFailures_eq, connectDelaysAfterFailures_eq]
  · rw [connectDelaysAfterFailures_eq, List.getElem?_map, List.getElem?_range hn]
    rfl

theorem C9_attempt_counter_local_witness :
    1 < 3 ∧
    (connectWebsocket ⟨some 4, 9⟩ [false, true] =
       connectWebsocketNoReset ⟨some 4, 9⟩ [false, true] ∧
     connectDelaysAfterFailures ⟨some 4, 9⟩ 3 = connectDelaysAfterFailures ⟨none, 0⟩ 3 ∧
     (connectDelaysAfterFailures ⟨some 4, 9⟩ 3)[1]? = some (backoffDelay (1 + 1)) ∧
     connectDelaysAfterFailures ⟨none, 0⟩ 8 = [1, 2, 2, 4, 4, 8, 8, 10]) :=
  ⟨by decide,
   C9_attempt_counter_local ⟨some 4, 9⟩ ⟨none, 0⟩ [false, true] 3 1 (by decide)⟩

/-- C3: The outbound queue has fixed capacity 100 and is FIFO; enqueue
is non-blocking, and enqueuing 101 messages while the consumer is
stalled rejects exactly the 101st message (its `put_nowait` raises
`queue.Full`) while the first 100 remain queued in their original
order, which is also the order repeated `get` drains them in. -/
theorem C3_queue_capacity_fifo (msgs : List Message)
    (h : msgs.length = queueCapacity + 1) :
    (enqueueAll (MQueue.empty Message) msgs).1.items = msgs.take queueCapacity ∧
    (enqueueAll (MQueue.empty Message) msgs).2 =
      List.replicate queueCapacity true ++ [false] ∧
    drainAll (enqueueAll (MQueue.empty Message) msgs).1 = msgs.take queueCapacity := by
  have hitems : (enqueueAll (MQueue.empty Message) msgs).1.items =
      msgs.take queueCapacity := by
    rw [enqueueAll_items]
    simp [MQueue.empty]
  refine ⟨hitems, ?_, by rw [drainAll_eq, hitems]⟩
  rw [enqueueAll_flags, h]
  decide

theorem C3_queue_capacity_fifo_witness :
    (List.replicate (queueCapacity + 1) (⟨0, [(0, 0)]⟩ : Message)).length =
      queueCapacity + 1 ∧
    ((enqueueAll (MQueue.empty Message)
        (List.replicate (queueCapacity + 1) (⟨0, [(0, 0)]⟩ : Message))).1.items =
      (List.replicate (queueCapacity + 1) (⟨0, [(0, 0)]⟩ : Message)).take queueCapacity ∧
     (enqueueAll (MQueue.empty Message)
        (List.replicate (queueCapacity + 1) (⟨0, [(0, 0)]⟩ : Message))).2 =
      List.replicate queueCapacity true ++ [false] ∧
     drainAll (enqueueAll (MQueue.empty Message)
        (List.replicate (queueCapacity + 1) (⟨0, [(0, 0)]⟩ : Message))).1 =
      (List.replicate (queueCapacity + 1) (⟨0, [(0, 0)]⟩ : Message)).take queueCapacity) :=
  ⟨by simp,
   C3_queue_capacity_fifo (List.replicate (queueCapacity + 1) ⟨0, [(0, 0)]⟩) (by simp)⟩

/-- C4: For every region, the outbound grid point is computed by taking
the rectangle center, dividing by the processing resolution (640, 640),
scaling by grid size 300, clamping each axis independently to
`[0, 300]`, and truncating to integer; in particular the rectangle
`(x=100, y=100, w=50, h=50)` yields the payload point `(58, 58)`. -/
theorem C4_grid_point :
    (∀ x y w h : ℚ, gridPoint x y w h = specGridPoint x y w h) ∧
    gridPoint 100 100 50 50 = (58, 58) :=
  ⟨gridPoint_eq_specGridPoint, gridPoint_concrete⟩

/-- C5, counterexample: with the queue already holding 100 entries, a
frame with one valid detection point (`validRegion` yields `(58, 58)`)
leaves the queue unchanged — nothing is enqueued even though the frame
yielded a valid point, so "enqueued iff at least one valid point" fails
as stated. -/
theorem C5_counterexample_full_queue :
    collectDots [validRegion] = .ok [(58, 58)] ∧
    fullQueue.items.length = queueCapacity ∧
    process_frame 5 [validRegion] fullQueue = .ok (true, fullQueue) := by
  refine ⟨collectDots_validRegion, by simp [fullQueue], ?_⟩
  rw [process_frame.eq_def, collectDots_validRegion]
  simp [putNowait, fullQueue]

/-- C5, amended: a detection-batch message is constructed and offered to
the queue iff the frame yielded at least one valid detection point, and
it is actually enqueued iff additionally the queue is not full; every
enqueued batch carries the non-empty dot list; a frame whose regions
all lack a resolvable identifier leaves the queue unchanged. -/
theorem C5_enqueue_conditions (sid : Nat) (regions : List Region)
    (q : MQueue Message) (dots : List (ℤ × ℤ))
    (hd : collectDots regions = .ok dots) :
    ∃ q', process_frame sid regions q = .ok (true, q') ∧
      (q'.items ≠ q.items ↔ dots ≠ [] ∧ q.items.length < queueCapacity) ∧
      (q'.items ≠ q.items → q'.items = q.items ++ [⟨sid, dots⟩] ∧ dots ≠ []) ∧
      ((∀ r ∈ regions, r.object_id = none ∨ r.object_id = some none) →
        q'.items = q.items) := by
  by_cases hdots : dots = []
  · refine ⟨q, ?_, ?_, ?_, fun _ => rfl⟩
    · rw [process_frame.eq_def, hd]
      simp [hdots]
    · simp [hdots]
    · intro hne
      exact absurd rfl hne
  · by_cases hlen : q.items.length < queueCapacity
    · refine ⟨⟨q.items ++ [⟨sid, dots⟩]⟩, ?_, ?_, ?_, ?_⟩
      · rw [process_frame.eq_def, hd]
        simp [hdots, putNowait, hlen]
      · simp only [ne_eq]
        constructor
        · intro _; exact ⟨hdots, hlen⟩
        · intro _ heq
          have : q.items.length = (q.items ++ [(⟨sid, dots⟩ : Message)]).length := by
            rw [heq]
          simp at this
      · intro _; exact ⟨rfl, hdots⟩
      · intro hall
        exact absurd (collectDots_skip_all regions dots hd hall) hdots
    · refine ⟨q, ?_, ?_, ?_, fun _ => rfl⟩
      · rw [process_frame.eq_def, hd]
        simp [hdots, putNowait, hlen]
      · simp [hdots, hlen]
      · intro hne
        exact absurd rfl hne

theorem C5_enqueue_conditions_witness :
    collectDots [validRegion] = .ok [(58, 58)] ∧
    (∃ q', process_frame 9 [validRegion] (MQueue.empty Message) = .ok (true, q') ∧
      (q'.items ≠ (MQueue.empty Message).items ↔
        ([((58:ℤ), (58:ℤ))] ≠ [] ∧
          (MQueue.empty Message).items.length < queueCapacity)) ∧
      (q'.items ≠ (MQueue.empty Message).items →
        q'.items = (MQueue.empty Message).items ++ [⟨9, [(58, 58)]⟩] ∧
          ([((58:ℤ), (58:ℤ))] : List (ℤ × ℤ)) ≠ []) ∧
      ((∀ r ∈ [validRegion], r.object_id = none ∨ r.object_id = some none) →
        q'.items = (MQueue.empty Message).items)) :=
  ⟨collectDots_validRegion,
   C5_enqueue_conditions 9 [validRegion] (MQueue.empty Message) [(58, 58)]
     collectDots_validRegion⟩

/-- C6: For every frame conforming to the collaborator interface (every
region exposes a working rectangle accessor), `process_frame` returns
`True` regardless of delivery outcome — including when zero valid
regions are found and when the queue is full — and no failure condition
propagates to the caller. -/
theorem C6_intake_reports_success (sid : Nat) (regions : List Region)
    (q : MQueue Message) (hres : ∀ r ∈ regions, r.rect ≠ none) :
    ∃ q', process_frame sid regions q = .ok (true, q') := by
  obtain ⟨ds, hds⟩ := collectDots_ok_of_rects regions hres
  by_cases h : ds = []
  · exact ⟨q, by rw [process_frame.eq_def, hds]; simp [h]⟩
  · exact ⟨(putNowait q ⟨sid, ds⟩).1, by rw [process_frame.eq_def, hds]; simp [h]⟩

theorem C6_intake_reports_success_witness :
    (∀ r ∈ [(⟨some (3, 4, 5, 6), none⟩ : Region)], r.rect ≠ none) ∧
    (∃ q', process_frame 2 [(⟨some (3, 4, 5, 6), none⟩ : Region)] fullQueue =
      .ok (true, q')) :=
  ⟨by decide,
   C6_intake_reports_success 2 [⟨some (3, 4, 5, 6), none⟩] fullQueue (by decide)⟩

/-- C10: `process_frame` reads `roi.rect()` before checking for the
identifier capability, so a frame containing any region without a
working rectangle accessor — even one that would afterwards be skipped
for lacking an identifier — makes intake raise `AttributeError` instead
of skipping that region. -/
theorem C10_missing_rect_raises (sid : Nat) (regions : List Region)
    (q : MQueue Message) (r0 : Region) (hmem : r0 ∈ regions)
    (hrect : r0.rect = none) :
    process_frame sid regions q = .error .attributeError := by
  have herr := collectDots_error_of_missing_rect regions ⟨r0, hmem, hrect⟩
  rw [process_frame.eq_def, herr]

theorem C10_missing_rect_raises_witness :
    (⟨none, none⟩ : Region) ∈ [(⟨none, none⟩ : Region)] ∧
    (⟨none, none⟩ : Region).rect = none ∧
    process_frame 0 [(⟨none, none⟩ : Region)] (MQueue.empty Message) =
      .error .attributeError :=
  ⟨by decide, by decide,
   C10_missing_rect_raises 0 [⟨none, none⟩] (MQueue.empty Message) ⟨none, none⟩
     (by decide) (by decide)⟩

/-- C7: On each supervisory tick with a live handle, one heartbeat with
the exact serialized payload `{"event": "heartbeat"}` is sent under the
shared lock, consuming exactly one send outcome (no retry within the
tick); on send failure the handle is cleared, and a tick without a
handle sends no heartbeat (it reconnects instead). -/
theorem C7_heartbeat_tick (w : World) (g : Nat) (b : Bool) (rest : List Bool)
    (hws : w.conn.ws = some g) (hso : w.sendOutcomes = b :: rest) :
    (manageTick w).1 = [⟨g, "\x7b\"event\": \"heartbeat\"\x7d", true, b⟩] ∧
    (manageTick w).2.sendOutcomes = rest ∧
    (b = false → (manageTick w).2.conn.ws = none) ∧
    (b = true → (manageTick w).2.conn = w.conn) ∧
    (∀ w' : World, w'.conn.ws = none → (manageTick w').1 = []) := by
  have htick : manageTick w = sendHeartbeat w := by
    simp [manageTick, hws]
  have hlast : ∀ w' : World, w'.conn.ws = none → (manageTick w').1 = [] := by
    intro w' h'
    simp [manageTick, h']
  cases b
  · have hsh : sendHeartbeat w =
        ([⟨g, heartbeatJson, true, false⟩],
         { w with sendOutcomes := rest, conn := { w.conn with ws := none } }) := by
      simp [sendHeartbeat, hws, popSend, hso]
    rw [htick, hsh]
    exact ⟨rfl, rfl, fun _ => rfl, fun h => absurd h (by simp), hlast⟩
  · have hsh : sendHeartbeat w =
        ([⟨g, heartbeatJson, true, true⟩], { w with sendOutcomes := rest }) := by
      simp [sendHeartbeat, hws, popSend, hso]
    rw [htick, hsh]
    exact ⟨rfl, rfl, fun h => absurd h (by simp), fun _ => rfl, hlast⟩

theorem C7_heartbeat_tick_witness :
    (⟨⟨some 3, 4⟩, [], [false]⟩ : World).conn.ws = some 3 ∧
    (⟨⟨some 3, 4⟩, [], [false]⟩ : World).sendOutcomes = false :: [] ∧
    ((manageTick ⟨⟨some 3, 4⟩, [], [false]⟩).1 =
       [⟨3, "\x7b\"event\": \"heartbeat\"\x7d", true, false⟩] ∧
     (manageTick ⟨⟨some 3, 4⟩, [], [false]⟩).2.sendOutcomes = [] ∧
     (false = false → (manageTick ⟨⟨some 3, 4⟩, [], [false]⟩).2.conn.ws = none) ∧
     (false = true →
       (manageTick ⟨⟨some 3, 4⟩, [], [false]⟩).2.conn =
         (⟨⟨some 3, 4⟩, [], [false]⟩ : World).conn) ∧
     (∀ w' : World, w'.conn.ws = none → (manageTick w').1 = [])) :=
  ⟨by decide, by decide,
   C7_heartbeat_tick ⟨⟨some 3, 4⟩, [], [false]⟩ 3 false [] (by decide) (by decide)⟩

/-- C2: Every transmitted data payload carries the current handle
generation; whenever a send fails, the handle is cleared and a
reconnect runs before the call returns, so the post-state's usable
generation strictly exceeds the failed one, and in any sequence of
sends no event after a failed event ever uses the failed event's
handle generation — every later send goes over a handle minted by a
fresh connect. -/
theorem C2_no_stale_handle_reuse (w : World) (msgs : List Message)
    (hinv : wsInv w.conn) :
    List.Pairwise staleOK (runSends w msgs).1 ∧
    (∀ (m : Message) (ev : SendEvent), (sendMessageW w m).1 = [ev] →
      ev.success = false →
      ev.gen < lbGen (sendMessageW w m).2.conn) := by
  refine ⟨(runSends_spec msgs w hinv).2.2.2, ?_⟩
  intro m ev hev hfail
  obtain ⟨_, _, _, hf⟩ := sendMessageW_spec w m hinv
  exact hf ev (by rw [hev]; simp) hfail

theorem C2_no_stale_handle_reuse_witness :
    wsInv (⟨⟨none, 0⟩, [true, true], [false, true]⟩ : World).conn ∧
    (List.Pairwise staleOK
       (runSends ⟨⟨none, 0⟩, [true, true], [false, true]⟩
         [⟨0, []⟩, ⟨1, []⟩]).1 ∧
     (∀ (m : Message) (ev : SendEvent),
        (sendMessageW ⟨⟨none, 0⟩, [true, true], [false, true]⟩ m).1 = [ev] →
        ev.success = false →
        ev.gen <
          lbGen (sendMessageW ⟨⟨none, 0⟩, [true, true], [false, true]⟩ m).2.conn)) :=
  ⟨by decide,
   C2_no_stale_handle_reuse ⟨⟨none, 0⟩, [true, true], [false, true]⟩
     [⟨0, []⟩, ⟨1, []⟩] (by decide)⟩

/-- C8, counterexample: `get_next_id` takes no lock, and its counter
read and increment are separate interpreter steps; interleaving two
complete allocations step for step makes both return identifier 0, so
allocation as implemented is not thread-safe and an identifier is
handed out twice. -/
theorem C8_counterexample_interleaving :
    (runSched allocInit [true, false, true, false, true, false]).t1.pc = 3 ∧
    (runSched allocInit [true, false, true, false, true, false]).t2.pc = 3 ∧
    (runSched allocInit [true, false, true, false, true, false]).t1.ret = 0 ∧
    (runSched allocInit [true, false, true, false, true, false]).t2.ret = 0 := by
  decide

/-- C8, amended: sequentially, allocation is monotonically increasing
from 0 with no gaps and identifiers are never reused: `n` successive
constructions receive `0, 1, ..., n-1` (the `k`-th receives `k-1`, two
sequential constructions receive 0 then 1, and the handed-out list has
no duplicates); but the allocator is unsynchronized, so concurrent
constructions may receive duplicate identifiers. -/
theorem C8_sequential_allocation (n k : Nat) (hk : k < n) :
    allocSeq 0 n = List.range n ∧
    (allocSeq 0 n)[k]? = some k ∧
    (allocSeq 0 n).Nodup ∧
    allocSeq 0 2 = [0, 1] ∧
    (runSched allocInit [true, true, true, false, false, false]).t1.ret = 0 ∧
    (runSched allocInit [true, true, true, false, false, false]).t2.ret = 1 := by
  have hr : allocSeq 0 n = List.range n := by
    rw [allocSeq_eq_range', ← List.range_eq_range']
  refine ⟨hr, ?_, ?_, by decide, by decide, by decide⟩
  · rw [hr, List.getElem?_range hk]
  · rw [hr]
    exact List.nodup_range n

theorem C8_sequential_allocation_witness :
    2 < 3 ∧
    (allocSeq 0 3 = List.range 3 ∧
     (allocSeq 0 3)[2]? = some 2 ∧
     (allocSeq 0 3).Nodup ∧
     allocSeq 0 2 = [0, 1] ∧
     (runSched allocInit [true, true, true, false, false, false]).t1.ret = 0 ∧
     (runSched allocInit [true, true, true, false, false, false]).t2.ret = 1) :=
  ⟨by decide, C8_sequential_allocation 3 2 (by decide)⟩


end AdaniWS

